import Mathlib

/-!
Verification of the batch-mixing data pipeline (`dataset.py`): the MixUp and
CutMix batch augmentation operators, the transform builders and the pipeline
assembly logic, embedded shallowly over exact rationals.

Conventions of the embedding:
* tensors are nested lists of `ℚ`; an image is channels × rows × cols;
* the ambient random draws are explicit parameters: `u` is the uniform draw
  compared against the skip probability `p`, `lam` is the Beta/Dirichlet
  mixing draw `float(1 - torch._sample_dirichlet(...)[0])`, `sq` stands for
  `math.sqrt(ratio)` of the nominal CutMix draw (the nominal draw is used by
  the source only through its square root, at lines 132-133), and `r`, `c`
  are the integer box-center coordinates `int(random.random()*H)`,
  `int(random.random()*W)`;
* Python exceptions are modelled with `Except String`.
-/

/-- A pixel image: channels × rows × cols of rational intensities. -/
abbrev Image := List (List (List ℚ))

/-- A batch target: either hard labels (a rank-1 integer array of class
indices) or soft labels (a rank-2 array of per-class weights). -/
inductive Target where
  | hard : List ℕ → Target
  | soft : List (List ℚ) → Target
deriving DecidableEq, Repr

/-- `F.one_hot` row: length `n`, weight 1 at index `cl`, 0 elsewhere. -/
def oneHot (n cl : ℕ) : List ℚ :=
  (List.range n).map fun i => if i = cl then 1 else 0

/-- The hard-to-soft promotion performed by both operators when
`target.ndim == 1`: `F.one_hot(target, num_classes=nclass)`. -/
def promote : Target → ℕ → List (List ℚ)
  | .hard cs, n => cs.map (oneHot n)
  | .soft tt, _ => tt

/-- `tensor.roll(1, 0)`: cyclic shift by one along the leading axis, so
entry `i` of the result is entry `i - 1 (mod N)` of the input. -/
def roll1 (l : List α) : List α :=
  match l.getLast? with
  | none => []
  | some a => a :: l.dropLast

/-- Scalar blend `a * (1 - lam) + b * lam` used by the pixel and label mixes. -/
def blendQ (lam a b : ℚ) : ℚ := a * (1 - lam) + b * lam

/-- Entrywise blend of two rows. -/
def blendRow (lam : ℚ) (r1 r2 : List ℚ) : List ℚ :=
  List.zipWith (blendQ lam) r1 r2

/-- Entrywise blend of two rank-2 arrays (soft targets, or image planes). -/
def blendMat (lam : ℚ) (m1 m2 : List (List ℚ)) : List (List ℚ) :=
  List.zipWith (blendRow lam) m1 m2

/-- Entrywise blend of two images. -/
def blendImage (lam : ℚ) (i1 i2 : Image) : Image :=
  List.zipWith (blendMat lam) i1 i2

/-- Entrywise blend of two image batches: `batch*(1-lam) + batch_roll*lam`. -/
def blendBatch (lam : ℚ) (b1 b2 : List Image) : List Image :=
  List.zipWith (blendImage lam) b1 b2

/-- The `MixUP` operator's configuration (constructor defaults of the
source: `p=0.5, alpha=1.0, nclass=1000`). -/
structure MixUP where
  p : ℚ := 1/2
  alpha : ℚ := 1
  nclass : ℕ := 1000
deriving DecidableEq, Repr

/-- The mixing steps of `MixUP.__call__` (everything after the skip test):
promotion, cyclic roll, and the pairwise interpolation with draw `lam`. -/
def MixUP.mix (m : MixUP) (lam : ℚ) (batch : List Image) (target : Target) :
    List Image × Target :=
  let tt := promote target m.nclass
  (blendBatch lam batch (roll1 batch), .soft (blendMat lam tt (roll1 tt)))

/-- `MixUP.__call__`: skip (return the batch unchanged) when `p > u` for the
uniform draw `u`, else run the mixing steps. -/
def MixUP.call (m : MixUP) (u lam : ℚ) (batch : List Image) (target : Target) :
    List Image × Target :=
  if m.p > u then (batch, target) else m.mix lam batch target

/-- The `CutMix` operator's configuration (constructor defaults of the
source: `p=0.5, alpha=1.0, nclass=1000`). -/
structure CutMix where
  p : ℚ := 1/2
  alpha : ℚ := 1
  nclass : ℕ := 1000
deriving DecidableEq, Repr

/-- Height of the images in a batch, read off the shape as `H` in
`B, C, H, W = batch.shape`. -/
def batchH (batch : List Image) : ℕ := ((batch.headD []).headD []).length

/-- Width of the images in a batch (`W` in `B, C, H, W = batch.shape`). -/
def batchW (batch : List Image) : ℕ :=
  (((batch.headD []).headD []).headD []).length

/-- `int(0.5 * math.sqrt(ratio) * d)` with `sq = math.sqrt(ratio)`; the
square root is nonnegative, so Python's truncation is the floor. -/
def halfLen (sq : ℚ) (d : ℕ) : ℕ := (Int.floor ((1/2 : ℚ) * sq * d)).toNat

/-- `max(center - half, 0)`: the lower clip of a box edge. -/
def clipLo (center half : ℕ) : ℤ := max ((center : ℤ) - half) 0

/-- `min(center + half, bound)`: the upper clip of a box edge. -/
def clipHi (center half bound : ℕ) : ℤ := min ((center : ℤ) + half) bound

/-- The effective mixing weight recomputed at line 142 of the source:
`1 - ((end_x - start_x) * (end_y - start_y) / (H * W))`. -/
def effLam (x0 x1 y0 y1 : ℤ) (H W : ℕ) : ℚ :=
  1 - (((x1 - x0) * (y1 - y0) : ℤ) : ℚ) / ((H : ℚ) * W)

/-- Overwrite the entries of `old` whose index `y` satisfies
`y0 ≤ y < y1` with the matching entries of `new` (a row of the slice
assignment `batch[:, :, x0:x1, y0:y1] = batch_roll[...]`). -/
def overwriteRow (y0 y1 : ℤ) (old new : List ℚ) : List ℚ :=
  old.mapIdx fun y a =>
    if y0 ≤ (y : ℤ) ∧ (y : ℤ) < y1 then new.getD y a else a

/-- Overwrite the `[x0,x1) × [y0,y1)` region of a rank-2 plane. -/
def overwriteMat (x0 x1 y0 y1 : ℤ) (old new : List (List ℚ)) :
    List (List ℚ) :=
  old.mapIdx fun x row =>
    if x0 ≤ (x : ℤ) ∧ (x : ℤ) < x1 then overwriteRow y0 y1 row (new.getD x [])
    else row

/-- Overwrite the region on every channel of an image. -/
def overwriteImg (x0 x1 y0 y1 : ℤ) (old new : Image) : Image :=
  old.mapIdx fun ch mat => overwriteMat x0 x1 y0 y1 mat (new.getD ch [])

/-- The slice assignment
`batch[:, :, x0:x1, y0:y1] = batch_roll[:, :, x0:x1, y0:y1]`. -/
def regionSwap (x0 x1 y0 y1 : ℤ) (old new : List Image) : List Image :=
  old.mapIdx fun i img => overwriteImg x0 x1 y0 y1 img (new.getD i [])

/-- The mixing steps of `CutMix.__call__`: promotion, roll, box geometry
clipped to bounds, region swap of the pixels, and the label blend with the
recomputed effective weight.  `sq` is `math.sqrt(ratio)` of the nominal
draw; `r` and `c` are the sampled center coordinates.  Faithful to the
source, the column clips at lines 139-140 reuse `r`; `c` is computed at
line 135 but never used afterwards. -/
def CutMix.mix (q : CutMix) (sq : ℚ) (r c : ℕ) (batch : List Image)
    (target : Target) : List Image × Target :=
  let tt := promote target q.nclass
  let H := batchH batch
  let W := batchW batch
  let broll := roll1 batch
  let troll := roll1 tt
  let hh := halfLen sq H
  let wh := halfLen sq W
  let x0 := clipLo r hh
  let x1 := clipHi r hh H
  let y0 := clipLo r wh
  let y1 := clipHi r wh W
  let lam := effLam x0 x1 y0 y1 H W
  (regionSwap x0 x1 y0 y1 batch broll, .soft (blendMat lam tt troll))

/-- `CutMix.__call__`: skip when `p > u`, else run the mixing steps. -/
def CutMix.call (q : CutMix) (u sq : ℚ) (r c : ℕ) (batch : List Image)
    (target : Target) : List Image × Target :=
  if q.p > u then (batch, target) else q.mix sq r c batch target

/-- Wellformedness of a target with respect to a class count: hard labels
are in range (so `F.one_hot` is defined), soft labels form a rank-2 array
whose rows each sum to one. -/
def targetOk : Target → ℕ → Prop
  | .hard cs, n => ∀ cl ∈ cs, cl < n
  | .soft tt, n => ∀ row ∈ tt, row.length = n ∧ row.sum = 1

instance : ∀ (t : Target) (n : ℕ), Decidable (targetOk t n)
  | .hard cs, n => by unfold targetOk; infer_instance
  | .soft tt, n => by unfold targetOk; infer_instance

deriving instance DecidableEq for Except

/-- A mixing operator held by the `RandomChoice` collate wrapper. -/
inductive MixOp where
  | mu : MixUP → MixOp
  | cm : CutMix → MixOp
deriving DecidableEq, Repr

/-- The skip probability an operator carries. -/
def MixOp.skipProb : MixOp → ℚ
  | .mu m => m.p
  | .cm q => q.p

/-- The concentration parameter an operator carries. -/
def MixOp.alphaOf : MixOp → ℚ
  | .mu m => m.alpha
  | .cm q => q.alpha

/-- Apply whichever operator was selected to a batch, with all random draws
passed explicitly (`lam` feeds MixUp, `sq`, `r`, `c` feed CutMix). -/
def MixOp.run (op : MixOp) (u lam sq : ℚ) (r c : ℕ) (batch : List Image)
    (target : Target) : List Image × Target :=
  match op with
  | .mu m => m.call u lam batch target
  | .cm q => q.call u sq r c batch target

/-- The configuration fields of `args` that the collate assembly reads. -/
structure MixArgs where
  mixup : ℚ
  cutmix : ℚ
  num_classes : ℕ
deriving DecidableEq, Repr

/-- Python truthiness of a numeric configuration value. -/
def truthyQ (q : ℚ) : Bool := q != 0

/-- Python truthiness of a string configuration value (`None` ↦ `""`). -/
def truthyS (s : String) : Bool := s.length != 0

/-- The `mix_collate` list built by `get_dataloader` (lines 159-163):
`MixUP(alpha=args.mixup, nclass=args.num_classes)` when `args.mixup` is
truthy, then `CutMix(alpha=args.mixup, nclass=args.num_classes)` when
`args.cutmix` is truthy — the source passes `args.mixup` as the alpha of
both operators, and passes no `p`, so both keep the default `p = 1/2`. -/
def buildMixCollate (a : MixArgs) : List MixOp :=
  (if truthyQ a.mixup then [.mu { alpha := a.mixup, nclass := a.num_classes }]
   else []) ++
  (if truthyQ a.cutmix then [.cm { alpha := a.mixup, nclass := a.num_classes }]
   else [])

/-- The concentration parameter of the first CutMix operator in a collate
list, when one is present. -/
def firstCutMixAlpha : List MixOp → Option ℚ
  | [] => none
  | .mu _ :: rest => firstCutMixAlpha rest
  | .cm q :: _ => some q.alpha

/-- The stages a built transform pipeline is composed of. -/
inductive Stage where
  | randomHFlip
  | randAugment
  | trivialAugmentWide
  | autoAugment
  | randomResizedCrop
  | resize
  | randomCrop
  | toTensor
  | normalize
  | randomErasing
deriving DecidableEq, Repr

/-- Python `assert e`: raises `AssertionError` exactly when `e` is falsy. -/
def pyAssert (cond : Bool) : Except String Unit :=
  if cond then .ok () else .error "AssertionError"

/-- `TrainTransform.__init__`: assembles the stage list.  At lines 46-47
an unrecognized `resize_mode` reaches `assert f"{resize_mode} should be
RandomResizedCrop and ResizeRandomCrop"` — an assert applied to a nonempty
string, hence truthy — and construction continues with no resize stage. -/
def trainTransformInit (resizeMode : String) (hflip : ℚ) (autoAug : String)
    (remode : ℚ) : Except String (List Stage) := do
  let l1 : List Stage := if truthyQ hflip then [.randomHFlip] else []
  let l2 : List Stage :=
    if truthyS autoAug then
      if autoAug.startsWith "ra" then [.randAugment]
      else if autoAug.startsWith "ta_wide" then [.trivialAugmentWide]
      else if autoAug.startsWith "aa" then [.autoAugment]
      else []
    else []
  let l3 : List Stage ←
    if resizeMode = "RandomResizedCrop" then pure [.randomResizedCrop]
    else if resizeMode = "ResizeRandomCrop" then pure [.resize, .randomCrop]
    else do
      pyAssert (truthyS
        (resizeMode ++ " should be RandomResizedCrop and ResizeRandomCrop"))
      pure []
  let l5 : List Stage := if truthyQ remode then [.randomErasing] else []
  pure (l1 ++ l2 ++ l3 ++ [.toTensor, .normalize] ++ l5)

/-- The keys of the module-level `_dataset_dict` registry. -/
def datasetKeys : List String :=
  ["ImageFolder", "CIFAR10", "CIFAR100", "FashionMNIST"]

/-- `_dataset_dict[k]`: a Python dict lookup, raising `KeyError` — whose
message is the repr of the missing key — when `k` is not a key. -/
def dictLookup (k : String) : Except String String :=
  if k ∈ datasetKeys then .ok k
  else .error ("'" ++ k ++ "'")

/-- Which construction strategy `get_dataset` follows. -/
inductive DatasetChoice where
  | imageFolder
  | downloadSplit
deriving DecidableEq, Repr

/-- `get_dataset` restricted to the dataset-selection control flow: the very
first statement is the registry lookup `_dataset_dict[args.dataset_type]`,
so an unsupported name raises there; afterwards the `ImageFolder` branch or
the `in _dataset_dict.keys()` branch runs.  The trailing
`else: assert f"..."` of the source is unreachable: the lookup already
raised for any name outside the registry. -/
def get_dataset (dsType : String) : Except String DatasetChoice :=
  match dictLookup dsType with
  | .error e => .error e
  | .ok k =>
    if k = "ImageFolder" then .ok .imageFolder
    else .ok .downloadSplit

/-- Does `needle` occur at the start of `hay`? -/
def startsList : List Char → List Char → Bool
  | [], _ => true
  | _ :: _, [] => false
  | a :: as, b :: bs => a == b && startsList as bs

/-- Does `needle` occur contiguously anywhere in `hay`? -/
def subList (needle : List Char) : List Char → Bool
  | [] => startsList needle []
  | b :: bs => startsList needle (b :: bs) || subList needle bs

/-- Substring test on strings, used to ask what an error message names. -/
def strHasSub (needle hay : String) : Bool := subList needle.toList hay.toList

/-- A concrete batch of two 1-channel 1×1 images, for boundary checks. -/
def b21 : List Image := [[[[3]]], [[[5]]]]

/-- A concrete batch of two 1-channel 2×4 images with distinct pixels, for
box-geometry checks. -/
def demoB : List Image :=
  [[[[1, 2, 3, 4], [5, 6, 7, 8]]], [[[10, 20, 30, 40], [50, 60, 70, 80]]]]

/-! ### Supporting lemmas -/

lemma roll1_length (l : List α) : (roll1 l).length = l.length := by
  unfold roll1
  cases hl : l.getLast? with
  | none => rw [List.getLast?_eq_none_iff.1 hl]
  | some a =>
    have hne : l ≠ [] := by
      intro h
      rw [h] at hl
      exact Option.noConfusion hl
    simp only [List.length_cons, List.length_dropLast]
    have hpos : 0 < l.length := List.length_pos.2 hne
    omega

lemma mem_roll1 {a : α} {l : List α} (h : a ∈ roll1 l) : a ∈ l := by
  unfold roll1 at h
  cases hl : l.getLast? with
  | none => rw [hl] at h; exact absurd h (List.not_mem_nil a)
  | some b =>
    rw [hl] at h
    rcases List.mem_cons.1 h with h1 | h2
    · subst h1
      obtain ⟨hne, rfl⟩ := List.mem_getLast?_eq_getLast hl
      exact List.getLast_mem hne
    · exact List.dropLast_subset l h2

lemma mem_zipWith {f : α → β → γ} :
    ∀ {l1 : List α} {l2 : List β} {y : γ}, y ∈ List.zipWith f l1 l2 →
      ∃ a ∈ l1, ∃ b ∈ l2, y = f a b := by
  intro l1
  induction l1 with
  | nil => intro l2 y h; exact absurd h (List.not_mem_nil y)
  | cons a as ih =>
    intro l2 y h
    cases l2 with
    | nil => exact absurd h (List.not_mem_nil y)
    | cons b bs =>
      rcases List.mem_cons.1 h with h1 | h2
      · exact ⟨a, List.mem_cons_self a as, b, List.mem_cons_self b bs, h1⟩
      · obtain ⟨a', ha', b', hb', hy⟩ := ih h2
        exact ⟨a', List.mem_cons_of_mem a ha', b', List.mem_cons_of_mem b hb', hy⟩

lemma oneHot_length (n cl : ℕ) : (oneHot n cl).length = n := by
  simp [oneHot]

lemma oneHot_sum {n cl : ℕ} (h : cl < n) : (oneHot n cl).sum = 1 := by
  induction n with
  | zero => exact absurd h (Nat.not_lt_zero cl)
  | succ n ih =>
    unfold oneHot at ih ⊢
    rw [List.range_succ, List.map_append, List.sum_append]
    rcases Nat.lt_succ_iff_lt_or_eq.1 h with h1 | h1
    · rw [ih h1]
      have : n ≠ cl := Nat.ne_of_gt h1
      simp [this]
    · subst h1
      have hz : ((List.range cl).map fun i => if i = cl then (1 : ℚ) else 0).sum = 0 := by
        apply List.sum_eq_zero
        intro x hx
        obtain ⟨i, hi, rfl⟩ := List.mem_map.1 hx
        have : i ≠ cl := Nat.ne_of_lt (List.mem_range.1 hi)
        simp [this]
      rw [hz]
      simp

lemma promote_ok {t : Target} {n : ℕ} (h : targetOk t n) :
    ∀ row ∈ promote t n, row.length = n ∧ row.sum = 1 := by
  cases t with
  | hard cs =>
    intro row hrow
    obtain ⟨cl, hcl, rfl⟩ := List.mem_map.1 hrow
    exact ⟨oneHot_length n cl, oneHot_sum (h cl hcl)⟩
  | soft tt => exact h

lemma blendRow_sum (lam : ℚ) :
    ∀ {r1 r2 : List ℚ}, r1.length = r2.length →
      (blendRow lam r1 r2).sum = r1.sum * (1 - lam) + r2.sum * lam := by
  intro r1
  induction r1 with
  | nil =>
    intro r2 h
    rw [(List.length_eq_zero.1 h.symm :)]
    simp [blendRow]
  | cons a as ih =>
    intro r2 h
    cases r2 with
    | nil => exact absurd h (by simp)
    | cons b bs =>
      have hlen : as.length = bs.length := by simpa using h
      simp only [blendRow, List.zipWith_cons_cons, List.sum_cons] at *
      rw [ih hlen, blendQ]
      ring

lemma blendMat_rows_sum (lam : ℚ) (tt : List (List ℚ)) (n : ℕ)
    (h : ∀ row ∈ tt, row.length = n ∧ row.sum = 1) :
    ∀ row ∈ blendMat lam tt (roll1 tt), row.sum = 1 := by
  intro row hrow
  obtain ⟨a, ha, b, hb, rfl⟩ := mem_zipWith hrow
  have hb' := mem_roll1 hb
  rw [blendRow_sum lam ((h a ha).1.trans (h b hb').1.symm), (h a ha).2,
      (h b hb').2]
  ring

lemma mapIdx_id_of {l : List α} {f : ℕ → α → α} (h : ∀ i a, f i a = a) :
    l.mapIdx f = l := by
  rw [List.mapIdx_eq_ofFn]
  simp only [h]
  exact List.ofFn_get l

lemma overwriteRow_empty {y0 y1 : ℤ} (h : y1 ≤ y0) (old new : List ℚ) :
    overwriteRow y0 y1 old new = old := by
  unfold overwriteRow
  apply mapIdx_id_of
  intro y a
  rw [if_neg]
  rintro ⟨h1, h2⟩
  omega

lemma overwriteMat_empty {x0 x1 y0 y1 : ℤ} (h : x1 ≤ x0 ∨ y1 ≤ y0)
    (old new : List (List ℚ)) : overwriteMat x0 x1 y0 y1 old new = old := by
  unfold overwriteMat
  apply mapIdx_id_of
  intro x row
  rcases h with h | h
  · rw [if_neg]
    rintro ⟨h1, h2⟩
    omega
  · rcases Decidable.em (x0 ≤ (x : ℤ) ∧ (x : ℤ) < x1) with hc | hc
    · rw [if_pos hc, overwriteRow_empty h]
    · rw [if_neg hc]

lemma overwriteImg_empty {x0 x1 y0 y1 : ℤ} (h : x1 ≤ x0 ∨ y1 ≤ y0)
    (old new : Image) : overwriteImg x0 x1 y0 y1 old new = old := by
  unfold overwriteImg
  apply mapIdx_id_of
  intro ch mat
  exact overwriteMat_empty h mat _

lemma regionSwap_empty {x0 x1 y0 y1 : ℤ} (h : x1 ≤ x0 ∨ y1 ≤ y0)
    (old new : List Image) : regionSwap x0 x1 y0 y1 old new = old := by
  unfold regionSwap
  apply mapIdx_id_of
  intro i img
  exact overwriteImg_empty h img _

lemma blendRow_one :
    ∀ {r1 r2 : List ℚ}, r1.length = r2.length → blendRow 1 r1 r2 = r2 := by
  intro r1
  induction r1 with
  | nil =>
    intro r2 h
    rw [(List.length_eq_zero.1 h.symm :)]
    rfl
  | cons a as ih =>
    intro r2 h
    cases r2 with
    | nil => exact absurd h (by simp)
    | cons b bs =>
      have hlen : as.length = bs.length := by simpa using h
      simp only [blendRow, List.zipWith_cons_cons] at *
      rw [ih hlen]
      have hq : blendQ 1 a b = b := by unfold blendQ; ring
      rw [hq]

lemma zipWith_snd_of_rows {n : ℕ} :
    ∀ {l1 l2 : List (List ℚ)}, l1.length = l2.length →
      (∀ a ∈ l1, a.length = n) → (∀ b ∈ l2, b.length = n) →
      blendMat 1 l1 l2 = l2 := by
  intro l1
  induction l1 with
  | nil =>
    intro l2 h _ _
    rw [(List.length_eq_zero.1 h.symm :)]
    rfl
  | cons a as ih =>
    intro l2 h ha hb
    cases l2 with
    | nil => exact absurd h (by simp)
    | cons b bs =>
      have hlen : as.length = bs.length := by simpa using h
      simp only [blendMat, List.zipWith_cons_cons] at *
      rw [blendRow_one ((ha a (by simp)).trans (hb b (by simp)).symm),
        ih hlen (fun x hx => ha x (by simp [hx]))
          (fun x hx => hb x (by simp [hx]))]

lemma blendMat_one_roll {tt : List (List ℚ)} {n : ℕ}
    (h : ∀ row ∈ tt, row.length = n) : blendMat 1 tt (roll1 tt) = roll1 tt :=
  zipWith_snd_of_rows (roll1_length tt).symm h
    (fun b hb => h b (mem_roll1 hb))

lemma zipWith_self {f : α → α → α} (h : ∀ a, f a a = a) :
    ∀ l : List α, List.zipWith f l l = l := by
  intro l
  induction l with
  | nil => rfl
  | cons a as ih => simp only [List.zipWith_cons_cons, h, ih]

lemma blendRow_self (lam : ℚ) (x : List ℚ) : blendRow lam x x = x :=
  zipWith_self (fun a => by unfold blendQ; ring) x

lemma blendMat_self (lam : ℚ) (x : List (List ℚ)) : blendMat lam x x = x :=
  zipWith_self (blendRow_self lam) x

lemma blendImage_self (lam : ℚ) (x : Image) : blendImage lam x x = x :=
  zipWith_self (blendMat_self lam) x

lemma roll1_single (a : α) : roll1 [a] = [a] := rfl

lemma startsList_append_self : ∀ (l m : List Char), startsList l (l ++ m) = true := by
  intro l
  induction l with
  | nil => intro m; rfl
  | cons a as ih =>
    intro m
    show (a == a && startsList as (as ++ m)) = true
    rw [beq_self_eq_true, Bool.true_and]
    exact ih m

lemma subList_append_self (l m : List Char) : subList l (l ++ m) = true := by
  cases l with
  | nil =>
    cases m with
    | nil => rfl
    | cons b bs => rfl
  | cons a as =>
    show (startsList (a :: as) (a :: (as ++ m)) ||
      subList (a :: as) (as ++ m)) = true
    have h1 : startsList (a :: as) (a :: (as ++ m)) = true :=
      startsList_append_self (a :: as) m
    rw [h1, Bool.true_or]

lemma cutmix_mix_fst (q : CutMix) (sq : ℚ) (r c : ℕ) (batch : List Image)
    (t : Target) :
    (q.mix sq r c batch t).1 = regionSwap
      (clipLo r (halfLen sq (batchH batch)))
      (clipHi r (halfLen sq (batchH batch)) (batchH batch))
      (clipLo r (halfLen sq (batchW batch)))
      (clipHi r (halfLen sq (batchW batch)) (batchW batch))
      batch (roll1 batch) := rfl

lemma cutmix_mix_snd (q : CutMix) (sq : ℚ) (r c : ℕ) (batch : List Image)
    (t : Target) :
    (q.mix sq r c batch t).2 = .soft (blendMat
      (effLam (clipLo r (halfLen sq (batchH batch)))
        (clipHi r (halfLen sq (batchH batch)) (batchH batch))
        (clipLo r (halfLen sq (batchW batch)))
        (clipHi r (halfLen sq (batchW batch)) (batchW batch))
        (batchH batch) (batchW batch))
      (promote t q.nclass) (roll1 (promote t q.nclass))) := rfl


lemma mixup_mix_fst (m : MixUP) (lam : ℚ) (batch : List Image) (t : Target) :
    (m.mix lam batch t).1 = blendBatch lam batch (roll1 batch) := rfl

lemma mixup_mix_snd (m : MixUP) (lam : ℚ) (batch : List Image) (t : Target) :
    (m.mix lam batch t).2 = .soft (blendMat lam (promote t m.nclass)
      (roll1 (promote t m.nclass))) := rfl

lemma halfLen_zero (d : ℕ) : halfLen 0 d = 0 := by
  simp [halfLen]

lemma half_gt_zero_q : (1 : ℚ)/2 > 0 := by norm_num

/-- A CutMix call whose clipped swap box has zero area leaves the pixels
unchanged but blends the labels with effective weight 1, replacing the
target by its cyclic shift. -/
lemma cutmix_zero_area (q : CutMix) (u sq : ℚ) (r c : ℕ)
    (batch : List Image) (t : Target) (hs : ¬ q.p > u)
    (ht : targetOk t q.nclass)
    (hzero : (clipHi r (halfLen sq (batchH batch)) (batchH batch) -
        clipLo r (halfLen sq (batchH batch))) *
      (clipHi r (halfLen sq (batchW batch)) (batchW batch) -
        clipLo r (halfLen sq (batchW batch))) = 0) :
    q.call u sq r c batch t = (batch, .soft (roll1 (promote t q.nclass))) := by
  have hx : clipHi r (halfLen sq (batchH batch)) (batchH batch) ≤
      clipLo r (halfLen sq (batchH batch)) ∨
      clipHi r (halfLen sq (batchW batch)) (batchW batch) ≤
      clipLo r (halfLen sq (batchW batch)) := by
    rcases mul_eq_zero.1 hzero with h | h
    · exact Or.inl (le_of_eq (sub_eq_zero.1 h))
    · exact Or.inr (le_of_eq (sub_eq_zero.1 h))
  have hlam : effLam (clipLo r (halfLen sq (batchH batch)))
      (clipHi r (halfLen sq (batchH batch)) (batchH batch))
      (clipLo r (halfLen sq (batchW batch)))
      (clipHi r (halfLen sq (batchW batch)) (batchW batch))
      (batchH batch) (batchW batch) = 1 := by
    unfold effLam
    rw [hzero]
    norm_num
  have hf := cutmix_mix_fst q sq r c batch t
  have hsn := cutmix_mix_snd q sq r c batch t
  rw [regionSwap_empty hx] at hf
  rw [hlam, blendMat_one_roll (fun row hr => (promote_ok ht row hr).1)] at hsn
  unfold CutMix.call
  rw [if_neg hs]
  exact Prod.ext hf hsn

/-! ### Claim theorems -/

/-- Claim C1: for every batch processed by MixUp or CutMix that executes its
mixing steps, if the input target is hard (in-range class indices) or soft
with every row summing to 1, then the output target is soft and every one of
its rows sums to exactly 1, for any mixing draw in `[0,1]` (and, for CutMix,
any box geometry). -/
theorem c1_label_mass_invariant (m : MixUP) (q : CutMix) (u lam sq : ℚ)
    (r c : ℕ) (batch : List Image) (t : Target)
    (hm : ¬ m.p > u) (hq : ¬ q.p > u) (h0 : 0 ≤ lam) (h1 : lam ≤ 1)
    (htm : targetOk t m.nclass) (htq : targetOk t q.nclass) :
    (∃ tt, (m.call u lam batch t).2 = .soft tt ∧ ∀ row ∈ tt, row.sum = 1) ∧
    (∃ tt, (q.call u sq r c batch t).2 = .soft tt ∧
      ∀ row ∈ tt, row.sum = 1) := by
  constructor
  · have h2 : (m.call u lam batch t).2 = .soft (blendMat lam
        (promote t m.nclass) (roll1 (promote t m.nclass))) := by
      unfold MixUP.call
      rw [if_neg hm]
      exact mixup_mix_snd m lam batch t
    exact ⟨_, h2, blendMat_rows_sum lam _ m.nclass (promote_ok htm)⟩
  · have h2 : (q.call u sq r c batch t).2 = .soft (blendMat
        (effLam (clipLo r (halfLen sq (batchH batch)))
          (clipHi r (halfLen sq (batchH batch)) (batchH batch))
          (clipLo r (halfLen sq (batchW batch)))
          (clipHi r (halfLen sq (batchW batch)) (batchW batch))
          (batchH batch) (batchW batch))
        (promote t q.nclass) (roll1 (promote t q.nclass))) := by
      unfold CutMix.call
      rw [if_neg hq]
      exact cutmix_mix_snd q sq r c batch t
    exact ⟨_, h2, blendMat_rows_sum _ _ q.nclass (promote_ok htq)⟩

theorem c1_label_mass_invariant_witness :
    (¬ ((0 : ℚ) > 0)) ∧
    ((∃ tt, (MixUP.call ⟨0, 1, 2⟩ 0 1 b21 (.hard [0, 1])).2 = .soft tt ∧
        ∀ row ∈ tt, row.sum = 1) ∧
     (∃ tt, (CutMix.call ⟨0, 1, 2⟩ 0 1 0 0 b21 (.hard [0, 1])).2 =
        .soft tt ∧ ∀ row ∈ tt, row.sum = 1)) :=
  ⟨by decide,
   c1_label_mass_invariant ⟨0, 1, 2⟩ ⟨0, 1, 2⟩ 0 1 1 0 0 b21 (.hard [0, 1])
     (by decide) (by decide) (by decide) (by decide) (by decide) (by decide)⟩

/-- Claim C2 counterexample: a CutMix call with nominal draw 0 (so the
clipped box has zero area) raises nothing, but its effective mixing weight
is 1 — not approximately 0 — and the output target is the cyclic shift of
the promoted input target, a full label swap rather than a near no-op. -/
theorem c2_zero_area_counterexample :
    CutMix.call ⟨0, 1, 2⟩ 0 0 0 0 b21 (.hard [0, 1]) =
      (b21, .soft [[0, 1], [1, 0]]) ∧
    effLam (clipLo 0 (halfLen 0 (batchH b21)))
      (clipHi 0 (halfLen 0 (batchH b21)) (batchH b21))
      (clipLo 0 (halfLen 0 (batchW b21)))
      (clipHi 0 (halfLen 0 (batchW b21)) (batchW b21))
      (batchH b21) (batchW b21) = 1 ∧
    Target.soft [[0, 1], [1, 0]] ≠ .soft (promote (.hard [0, 1]) 2) := by
  have hz : (clipHi 0 (halfLen 0 (batchH b21)) (batchH b21) -
      clipLo 0 (halfLen 0 (batchH b21))) *
      (clipHi 0 (halfLen 0 (batchW b21)) (batchW b21) -
      clipLo 0 (halfLen 0 (batchW b21))) = 0 := by
    rw [halfLen_zero, halfLen_zero]
    decide
  refine ⟨?_, ?_, by decide⟩
  · rw [cutmix_zero_area ⟨0, 1, 2⟩ 0 0 0 0 b21 (.hard [0, 1]) (by decide)
      (by decide) hz]
    decide
  · rw [halfLen_zero, halfLen_zero]
    rw [show batchH b21 = 1 from rfl, show batchW b21 = 1 from rfl]
    rw [show clipLo 0 0 = 0 from by decide, show clipHi 0 0 1 = 0 from by decide]
    norm_num [effLam]

/-- Claim C2 amended: when region clipping produces a zero-area swap box,
the CutMix call is valid and raises no exception, but the effective mixing
weight is 1, so the output batch is the input batch unchanged while the
output target is the cyclic shift of the promoted target — a full label
swap, not a near no-op. -/
theorem c2_zero_area_behavior (q : CutMix) (u sq : ℚ) (r c : ℕ)
    (batch : List Image) (t : Target) (hs : ¬ q.p > u)
    (ht : targetOk t q.nclass)
    (hzero : (clipHi r (halfLen sq (batchH batch)) (batchH batch) -
        clipLo r (halfLen sq (batchH batch))) *
      (clipHi r (halfLen sq (batchW batch)) (batchW batch) -
        clipLo r (halfLen sq (batchW batch))) = 0) :
    q.call u sq r c batch t = (batch, .soft (roll1 (promote t q.nclass))) :=
  cutmix_zero_area q u sq r c batch t hs ht hzero

theorem c2_zero_area_behavior_witness :
    (¬ ((0 : ℚ) > 0)) ∧
    CutMix.call ⟨0, 1, 2⟩ 0 0 0 0 b21 (.hard [0, 1]) =
      (b21, .soft (roll1 (promote (.hard [0, 1]) 2))) :=
  ⟨by decide,
   c2_zero_area_behavior ⟨0, 1, 2⟩ 0 0 0 0 b21 (.hard [0, 1]) (by decide)
     (by decide) (by rw [halfLen_zero, halfLen_zero]; decide)⟩

/-- Claim C3: for every executing CutMix invocation, with the swap box
clipped to bounds `[x0,x1) × [y0,y1)` on an `H×W` image, the effective
mixing weight used for the label blend equals exactly
`1 - (x1-x0)*(y1-y0)/(H*W)`, and the output target is
`T*(1-r_eff) + T'*r_eff` where `T'` is the cyclic shift of the (promoted)
target `T`. -/
theorem c3_cutmix_area_consistency (q : CutMix) (u sq : ℚ) (r c : ℕ)
    (batch : List Image) (t : Target) (x0 x1 y0 y1 : ℤ)
    (hs : ¬ q.p > u) (hH : 0 < batchH batch) (hW : 0 < batchW batch)
    (hx0 : x0 = clipLo r (halfLen sq (batchH batch)))
    (hx1 : x1 = clipHi r (halfLen sq (batchH batch)) (batchH batch))
    (hy0 : y0 = clipLo r (halfLen sq (batchW batch)))
    (hy1 : y1 = clipHi r (halfLen sq (batchW batch)) (batchW batch)) :
    (q.call u sq r c batch t).2 = .soft (blendMat
      (1 - (((x1 - x0) * (y1 - y0) : ℤ) : ℚ) /
        ((batchH batch : ℚ) * batchW batch))
      (promote t q.nclass) (roll1 (promote t q.nclass))) := by
  subst hx0 hx1 hy0 hy1
  unfold CutMix.call
  rw [if_neg hs]
  exact cutmix_mix_snd q sq r c batch t

theorem c3_cutmix_area_consistency_witness :
    (¬ ((0 : ℚ) > 1)) ∧
    (CutMix.call ⟨0, 1, 2⟩ 1 1 0 0 b21 (.hard [0, 1])).2 =
      .soft (blendMat
        (1 - (((clipHi 0 (halfLen 1 (batchH b21)) (batchH b21) -
            clipLo 0 (halfLen 1 (batchH b21))) *
          (clipHi 0 (halfLen 1 (batchW b21)) (batchW b21) -
            clipLo 0 (halfLen 1 (batchW b21))) : ℤ) : ℚ) /
          ((batchH b21 : ℚ) * batchW b21))
        (promote (.hard [0, 1]) 2) (roll1 (promote (.hard [0, 1]) 2))) :=
  ⟨by decide,
   c3_cutmix_area_consistency ⟨0, 1, 2⟩ 1 1 0 0 b21 (.hard [0, 1])
     _ _ _ _ (by decide) (by decide) (by decide) rfl rfl rfl rfl⟩

/-- Claim C4 counterexample: with image height 2, width 4, nominal-draw
square root 1 (half-height 1, half-width 2), center row 0 and center column
3, the pixels CutMix actually swaps are the columns clipped around the ROW
coordinate (columns 0-1), not around the independently drawn column
coordinate (columns 1-3): the output batch differs from what column-based
clipping would produce. -/
theorem c4_column_clip_counterexample :
    (CutMix.call ⟨0, 1, 2⟩ 0 1 0 3 demoB (.hard [0, 1])).1 =
      regionSwap (clipLo 0 1) (clipHi 0 1 2) (clipLo 0 2) (clipHi 0 2 4)
        demoB (roll1 demoB) ∧
    (CutMix.call ⟨0, 1, 2⟩ 0 1 0 3 demoB (.hard [0, 1])).1 ≠
      regionSwap (clipLo 0 1) (clipHi 0 1 2) (clipLo 3 2) (clipHi 3 2 4)
        demoB (roll1 demoB) := by
  have hcall : (CutMix.call ⟨0, 1, 2⟩ 0 1 0 3 demoB (.hard [0, 1])).1 =
      regionSwap (clipLo 0 (halfLen 1 (batchH demoB)))
        (clipHi 0 (halfLen 1 (batchH demoB)) (batchH demoB))
        (clipLo 0 (halfLen 1 (batchW demoB)))
        (clipHi 0 (halfLen 1 (batchW demoB)) (batchW demoB))
        demoB (roll1 demoB) := by
    unfold CutMix.call
    rw [if_neg (by decide)]
    exact cutmix_mix_fst ⟨0, 1, 2⟩ 1 0 3 demoB (.hard [0, 1])
  have hh2 : halfLen 1 (batchH demoB) = 1 := by
    rw [show batchH demoB = 2 from rfl]
    norm_num [halfLen]
  have hw2 : halfLen 1 (batchW demoB) = 2 := by
    rw [show batchW demoB = 4 from rfl]
    norm_num [halfLen]
    decide
  rw [hcall, hh2, hw2, show batchH demoB = 2 from rfl,
    show batchW demoB = 4 from rfl]
  exact ⟨rfl, by decide⟩

/-- Claim C4 amended: the CutMix swap region's row bounds are
`row ± half_height` clipped to `[0,H]`, and its column bounds are ALSO
computed from the row coordinate — `row ± half_width` clipped to `[0,W]`;
the independently drawn column coordinate `c` is computed but unused. -/
theorem c4_bounds_reuse_row_coordinate (q : CutMix) (u sq : ℚ) (r c : ℕ)
    (batch : List Image) (t : Target) (hs : ¬ q.p > u) :
    (q.call u sq r c batch t).1 = regionSwap
      (clipLo r (halfLen sq (batchH batch)))
      (clipHi r (halfLen sq (batchH batch)) (batchH batch))
      (clipLo r (halfLen sq (batchW batch)))
      (clipHi r (halfLen sq (batchW batch)) (batchW batch))
      batch (roll1 batch) := by
  unfold CutMix.call
  rw [if_neg hs]
  exact cutmix_mix_fst q sq r c batch t

theorem c4_bounds_reuse_row_coordinate_witness :
    (¬ ((0 : ℚ) > 0)) ∧
    (CutMix.call ⟨0, 1, 2⟩ 0 1 0 3 demoB (.hard [0, 1])).1 = regionSwap
      (clipLo 0 (halfLen 1 (batchH demoB)))
      (clipHi 0 (halfLen 1 (batchH demoB)) (batchH demoB))
      (clipLo 0 (halfLen 1 (batchW demoB)))
      (clipHi 0 (halfLen 1 (batchW demoB)) (batchW demoB))
      demoB (roll1 demoB) :=
  ⟨by decide,
   c4_bounds_reuse_row_coordinate ⟨0, 1, 2⟩ 0 1 0 3 demoB (.hard [0, 1])
     (by decide)⟩

/-- Claim C5 (code bug): with configuration `mixup = 2, cutmix = 3`, the
collate assembly constructs the CutMix operator with concentration
parameter 2 — the configured MIXUP value — not the configured cutmix
value 3, because line 163 of the source passes `alpha=args.mixup`. -/
theorem c5_cutmix_receives_mixup_alpha :
    firstCutMixAlpha (buildMixCollate ⟨2, 3, 5⟩) = some 2 ∧
    MixArgs.cutmix ⟨2, 3, 5⟩ = 3 ∧ ((2 : ℚ) ≠ 3) := by decide

/-- Claim C6 (code bug): constructing the training transform with the
unrecognized resize mode "Unknown" raises nothing — the guard at line 47
is `assert` applied to a nonempty (hence truthy) string, an always-true
placeholder — and construction succeeds with no resize stage at all. -/
theorem c6_unknown_resize_mode_no_error :
    trainTransformInit "Unknown" 1 "" 0 =
      .ok [.randomHFlip, .toTensor, .normalize] ∧
    pyAssert (truthyS
      ("Unknown" ++ " should be RandomResizedCrop and ResizeRandomCrop")) =
      .ok () := by decide

/-- Claim C7 counterexample: requesting dataset type "Foo" does raise
immediately (a `KeyError` from the registry lookup), and its message names
the invalid value, but the message names none of the accepted dataset
kinds. -/
theorem c7_keyerror_message_counterexample :
    get_dataset "Foo" = .error "'Foo'" ∧
    strHasSub "Foo" "'Foo'" = true ∧
    strHasSub "ImageFolder" "'Foo'" = false ∧
    strHasSub "CIFAR10" "'Foo'" = false ∧
    strHasSub "CIFAR100" "'Foo'" = false ∧
    strHasSub "FashionMNIST" "'Foo'" = false := by decide

/-- Claim C7 amended: calling `get_dataset` with a dataset type outside the
registry fails immediately at pipeline-build time — the registry lookup is
the first statement — with a `KeyError` whose message names the invalid
value; the message does not list the accepted set. -/
theorem c7_unsupported_dataset_raises_keyerror (k : String)
    (h : k ∉ datasetKeys) :
    get_dataset k = .error ("'" ++ k ++ "'") ∧
    strHasSub k ("'" ++ k ++ "'") = true := by
  constructor
  · unfold get_dataset dictLookup
    rw [if_neg h]
  · unfold strHasSub
    have h1 : ("'" ++ k ++ "'").toList =
        "'".toList ++ k.toList ++ "'".toList := by simp
    have h2 : "'".toList = ['\''] := rfl
    rw [h1, h2]
    show (startsList k.toList ('\'' :: (k.toList ++ ['\''])) ||
      subList k.toList (k.toList ++ ['\''])) = true
    rw [subList_append_self, Bool.or_true]

theorem c7_unsupported_dataset_raises_keyerror_witness :
    ("Foo" ∉ datasetKeys) ∧
    (get_dataset "Foo" = .error ("'" ++ "Foo" ++ "'") ∧
     strHasSub "Foo" ("'" ++ "Foo" ++ "'") = true) :=
  ⟨by decide, c7_unsupported_dataset_raises_keyerror "Foo" (by decide)⟩

/-- Claim C8: each mixing operator skips exactly when `p > u` for the
uniform draw `u ∈ [0,1)`: with `p = 1` the call returns the batch and
target unchanged for every such draw, and with `p = 0` it always executes
its mixing steps. -/
theorem c8_skip_comparison_boundaries (m : MixUP) (q : CutMix)
    (u lam sq : ℚ) (r c : ℕ) (batch : List Image) (t : Target)
    (h0 : 0 ≤ u) (h1 : u < 1) :
    (m.p > u → m.call u lam batch t = (batch, t)) ∧
    (¬ m.p > u → m.call u lam batch t = m.mix lam batch t) ∧
    (m.p = 1 → m.call u lam batch t = (batch, t)) ∧
    (m.p = 0 → m.call u lam batch t = m.mix lam batch t) ∧
    (q.p > u → q.call u sq r c batch t = (batch, t)) ∧
    (¬ q.p > u → q.call u sq r c batch t = q.mix sq r c batch t) ∧
    (q.p = 1 → q.call u sq r c batch t = (batch, t)) ∧
    (q.p = 0 → q.call u sq r c batch t = q.mix sq r c batch t) := by
  refine ⟨fun hp => ?_, fun hp => ?_, fun hp => ?_, fun hp => ?_,
    fun hp => ?_, fun hp => ?_, fun hp => ?_, fun hp => ?_⟩
  · unfold MixUP.call
    rw [if_pos hp]
  · unfold MixUP.call
    rw [if_neg hp]
  · unfold MixUP.call
    rw [hp, if_pos h1]
  · unfold MixUP.call
    rw [hp, if_neg (not_lt.2 h0)]
  · unfold CutMix.call
    rw [if_pos hp]
  · unfold CutMix.call
    rw [if_neg hp]
  · unfold CutMix.call
    rw [hp, if_pos h1]
  · unfold CutMix.call
    rw [hp, if_neg (not_lt.2 h0)]

theorem c8_skip_comparison_boundaries_witness :
    ((0 : ℚ) ≤ 0 ∧ (0 : ℚ) < 1) ∧
    (((MixUP.p ⟨1, 2, 3⟩ > 0) →
        MixUP.call ⟨1, 2, 3⟩ 0 1 b21 (.hard [0, 1]) = (b21, .hard [0, 1])) ∧
     ((¬ MixUP.p ⟨1, 2, 3⟩ > 0) →
        MixUP.call ⟨1, 2, 3⟩ 0 1 b21 (.hard [0, 1]) =
          MixUP.mix ⟨1, 2, 3⟩ 1 b21 (.hard [0, 1])) ∧
     (MixUP.p ⟨1, 2, 3⟩ = 1 →
        MixUP.call ⟨1, 2, 3⟩ 0 1 b21 (.hard [0, 1]) = (b21, .hard [0, 1])) ∧
     (MixUP.p ⟨1, 2, 3⟩ = 0 →
        MixUP.call ⟨1, 2, 3⟩ 0 1 b21 (.hard [0, 1]) =
          MixUP.mix ⟨1, 2, 3⟩ 1 b21 (.hard [0, 1])) ∧
     ((CutMix.p ⟨1, 2, 3⟩ > 0) →
        CutMix.call ⟨1, 2, 3⟩ 0 1 0 0 b21 (.hard [0, 1]) =
          (b21, .hard [0, 1])) ∧
     ((¬ CutMix.p ⟨1, 2, 3⟩ > 0) →
        CutMix.call ⟨1, 2, 3⟩ 0 1 0 0 b21 (.hard [0, 1]) =
          CutMix.mix ⟨1, 2, 3⟩ 1 0 0 b21 (.hard [0, 1])) ∧
     (CutMix.p ⟨1, 2, 3⟩ = 1 →
        CutMix.call ⟨1, 2, 3⟩ 0 1 0 0 b21 (.hard [0, 1]) =
          (b21, .hard [0, 1])) ∧
     (CutMix.p ⟨1, 2, 3⟩ = 0 →
        CutMix.call ⟨1, 2, 3⟩ 0 1 0 0 b21 (.hard [0, 1]) =
          CutMix.mix ⟨1, 2, 3⟩ 1 0 0 b21 (.hard [0, 1]))) :=
  ⟨⟨by decide, by decide⟩,
   c8_skip_comparison_boundaries ⟨1, 2, 3⟩ ⟨1, 2, 3⟩ 0 1 1 0 0 b21
     (.hard [0, 1]) (by decide) (by decide)⟩

/-- Claim C9: for a batch of size 1, the cyclic shift equals the original
batch, so an executing MixUp call returns the image batch numerically
unchanged regardless of the drawn mixing weight. -/
theorem c9_single_sample_identity (m : MixUP) (u lam : ℚ) (img : Image)
    (t : Target) (hs : ¬ m.p > u) :
    (m.call u lam [img] t).1 = [img] := by
  unfold MixUP.call
  rw [if_neg hs, mixup_mix_fst, roll1_single,
    show blendBatch lam [img] [img] = [blendImage lam img img] from rfl,
    blendImage_self]

theorem c9_single_sample_identity_witness :
    (¬ ((0 : ℚ) > 0)) ∧
    (MixUP.call ⟨0, 1, 2⟩ 0 1 [[[[7]]]] (.hard [0])).1 = [[[[7]]]] :=
  ⟨by decide,
   c9_single_sample_identity ⟨0, 1, 2⟩ 0 1 [[[7]]] (.hard [0]) (by decide)⟩

/-- Claim C10: every operator the collate assembly builds is constructed
without an explicit skip probability, so it carries the constructor default
`p = 1/2`, and whichever operator is selected still returns the batch and
target unchanged whenever its skip draw satisfies `1/2 > u`. -/
theorem c10_assembler_default_half_skip (a : MixArgs) (op : MixOp)
    (hop : op ∈ buildMixCollate a) (u lam sq : ℚ) (r c : ℕ)
    (batch : List Image) (t : Target) (hu : (1 : ℚ)/2 > u) :
    op.skipProb = 1/2 ∧ op.run u lam sq r c batch t = (batch, t) := by
  unfold buildMixCollate at hop
  rcases List.mem_append.1 hop with h | h
  · by_cases hm : truthyQ a.mixup = true
    · rw [if_pos hm] at h
      rw [List.mem_singleton.1 h]
      refine ⟨rfl, ?_⟩
      show MixUP.call _ u lam batch t = (batch, t)
      unfold MixUP.call
      rw [if_pos hu]
    · rw [if_neg hm] at h
      exact absurd h (List.not_mem_nil op)
  · by_cases hc : truthyQ a.cutmix = true
    · rw [if_pos hc] at h
      rw [List.mem_singleton.1 h]
      refine ⟨rfl, ?_⟩
      show CutMix.call _ u sq r c batch t = (batch, t)
      unfold CutMix.call
      rw [if_pos hu]
    · rw [if_neg hc] at h
      exact absurd h (List.not_mem_nil op)

theorem c10_assembler_default_half_skip_witness :
    ((1 : ℚ)/2 > 0) ∧
    ((MixOp.cm { alpha := 2, nclass := 5 }).skipProb = 1/2 ∧
     (MixOp.cm { alpha := 2, nclass := 5 }).run 0 1 1 0 0 b21
       (.hard [0, 1]) = (b21, .hard [0, 1])) :=
  ⟨half_gt_zero_q,
   c10_assembler_default_half_skip ⟨2, 3, 5⟩ (.cm { alpha := 2, nclass := 5 })
     (by rw [show buildMixCollate ⟨2, 3, 5⟩ =
           [.mu { alpha := 2, nclass := 5 }, .cm { alpha := 2, nclass := 5 }]
           from rfl]
         exact List.mem_cons_of_mem _ (List.mem_cons_self _ _))
     0 1 1 0 0 b21 (.hard [0, 1]) half_gt_zero_q⟩
